import Mathlib

/-!
Verification of the dbmigrator migration engine.

This file gives a shallow embedding of the core of the `dbmigrator`
repository — the semantic-version type (`semver.go`), the command/statement
type (`command.go`), the script parser, the selector, the runner and the
`Process` orchestration (`engine.go`) and the migrations repository's
table-existence check (`repositories/migrations.go`) — and proves properties
of that embedding.

Modelling conventions:
  * Go strings are modelled as `List Char`; the Go standard-library string
    helpers used by the code (`strings.TrimSpace`, `strings.Index`,
    `strings.Split`, `strings.Join`, `strings.HasPrefix`,
    `strings.HasSuffix`, `strconv.Atoi`, `fmt.Sprintf "%d"`) are embedded as
    executable functions on `List Char` below.
  * The database, the migrations repository and the script file are external
    collaborators; they are modelled as an environment of oracles (`Env`)
    that fixes the outcome of every call the engine makes.  External `error`
    values are modelled as `Nat` tokens (`none` = the call returned `nil`).
  * The `semver` struct's `int` fields are modelled as `Nat`: every value the
    program constructs comes from `newSemver`, which discards negative
    components (`if conv < 0 { continue }`), or is the zero `bottomVersion`.
-/

namespace Dbmigrator

/-! ## Version (`semver.go`) -/

/-- The `semver` struct: `{major, minor, patch int}`. -/
structure Semver where
  major : Nat
  minor : Nat
  patch : Nat
deriving DecidableEq, Repr

/-- `bottomVersion`: the distinguished zero version `0.0.0`
(`var bottomVersion Semver = newSemver("0.0.0")`). -/
def bottomVersion : Semver := ⟨0, 0, 0⟩

/-- `(sv *semver) GreaterThan(cmp Semver) bool`: lexicographic strict
comparison by (major, minor, patch). -/
def Semver.GreaterThan (sv cmp : Semver) : Bool :=
  if sv.major > cmp.major then true
  else if sv.major = cmp.major ∧ sv.minor > cmp.minor then true
  else if sv.major = cmp.major ∧ sv.minor = cmp.minor ∧ sv.patch > cmp.patch then true
  else false

/-- `(sv *semver) Equals(cmp Semver) bool`: component-wise equality. -/
def Semver.Equals (sv cmp : Semver) : Bool :=
  decide (sv.major = cmp.major ∧ sv.minor = cmp.minor ∧ sv.patch = cmp.patch)

/-- `(sv *semver) WouldRollback(cmp Semver) bool`: true iff `sv` is
lexicographically strictly less than `cmp`. -/
def Semver.WouldRollback (sv cmp : Semver) : Bool :=
  if sv.major < cmp.major then true
  else if sv.major = cmp.major ∧ sv.minor < cmp.minor then true
  else if sv.major = cmp.major ∧ sv.minor = cmp.minor ∧ sv.patch < cmp.patch then true
  else false

/-! ## Go string helpers on `List Char` -/

/-- Whitespace predicate used by `strings.TrimSpace` (the code only ever
meets ASCII whitespace). -/
def goIsSpace (c : Char) : Bool :=
  decide (c = ' ' ∨ c = '\t' ∨ c = '\n' ∨ c = '\r')

/-- `strings.TrimSpace`. -/
def trimList (s : List Char) : List Char :=
  ((s.dropWhile goIsSpace).reverse.dropWhile goIsSpace).reverse

/-- `strings.HasPrefix(hay, needle)` (needle first here). -/
def startsWithList : List Char → List Char → Bool
  | [], _ => true
  | _ :: _, [] => false
  | a :: as, b :: bs => a = b && startsWithList as bs

/-- `strings.Index(hay, needle)`: index of the first occurrence of `needle`
in `hay`, `none` when absent (Go returns `-1`). -/
def findSub (needle : List Char) : List Char → Option Nat
  | [] => if startsWithList needle [] then some 0 else none
  | c :: rest =>
    if startsWithList needle (c :: rest) then some 0
    else (findSub needle rest).map (· + 1)

/-- `strings.Split(s, ".")`: split on every `'.'`. -/
def splitDot : List Char → List (List Char)
  | [] => [[]]
  | c :: rest =>
    if c = '.' then [] :: splitDot rest
    else
      match splitDot rest with
      | [] => [[c]]
      | g :: gs => (c :: g) :: gs

/-- `strings.Split(s, "#v")`: split on every occurrence of the
two-character version prolog. -/
def splitHashV : List Char → List (List Char)
  | [] => [[]]
  | '#' :: 'v' :: rest => [] :: splitHashV rest
  | c :: rest =>
    match splitHashV rest with
    | [] => [[c]]
    | g :: gs => (c :: g) :: gs

/-- `strings.Join(xs, " ")`. -/
def joinSpace (xs : List (List Char)) : List Char :=
  List.intercalate [' '] xs

/-- `strings.HasSuffix(s, ";")`. -/
def endsSemicolon (s : List Char) : Bool :=
  match s.getLast? with
  | some c => c = ';'
  | none => false

/-- Decimal digit characters, used to model `fmt.Sprintf("%d", n)`. -/
def digitChar (n : Nat) : Char :=
  if n = 0 then '0' else if n = 1 then '1' else if n = 2 then '2'
  else if n = 3 then '3' else if n = 4 then '4' else if n = 5 then '5'
  else if n = 6 then '6' else if n = 7 then '7' else if n = 8 then '8' else '9'

/-- Value of a decimal digit character, `none` for non-digits
(`strconv.Atoi` rejects any non-digit). -/
def digitVal (c : Char) : Option Nat :=
  if '0' ≤ c ∧ c ≤ '9' then some (c.toNat - 48) else none

/-- Accumulating decimal reading of a digit string. -/
def digitsToNatAux (acc : Nat) : List Char → Option Nat
  | [] => some acc
  | c :: rest =>
    match digitVal c with
    | none => none
    | some d => digitsToNatAux (acc * 10 + d) rest

/-- Reads a non-empty all-digit string as a `Nat`, `none` otherwise. -/
def digitsToNat : List Char → Option Nat
  | [] => none
  | c :: rest => digitsToNatAux 0 (c :: rest)

/-- `strconv.Atoi`: optional sign followed by a non-empty digit string.
(Overflow of the machine `int` is not modelled.) -/
def goAtoi : List Char → Option Int
  | [] => none
  | c :: rest =>
    if c = '-' then (digitsToNat rest).map (fun n => -(Int.ofNat n))
    else if c = '+' then (digitsToNat rest).map Int.ofNat
    else (digitsToNat (c :: rest)).map Int.ofNat

/-- Fuel-indexed decimal rendering (mirrors the structure of
`Nat.toDigits`); the fuel `n + 1` always suffices. -/
def natToCharsAux : Nat → Nat → List Char → List Char
  | 0, _, ds => ds
  | fuel + 1, n, ds =>
    let ds' := digitChar (n % 10) :: ds
    if n < 10 then ds' else natToCharsAux fuel (n / 10) ds'

/-- `fmt.Sprintf("%d", n)` for a non-negative `int`. -/
def natToChars (n : Nat) : List Char := natToCharsAux (n + 1) n []

/-- Reference (well-founded) form of `natToChars`, used only in proofs. -/
def natCharsW (n : Nat) : List Char :=
  if n < 10 then [digitChar n]
  else natCharsW (n / 10) ++ [digitChar (n % 10)]
decreasing_by exact Nat.div_lt_self (by omega) (by omega)

/-- `(sv *semver) ToString() string`: `fmt.Sprintf("%d.%d.%d", ...)`. -/
def Semver.ToString (sv : Semver) : List Char :=
  natToChars sv.major ++ ('.' :: (natToChars sv.minor ++ ('.' :: natToChars sv.patch)))

/-! ## `newSemver` (`semver.go`) -/

/-- The `if str[0] == 'v' { str = str[1:] }` step of `newSemver`. -/
def stripV : List Char → List Char
  | [] => []
  | c :: rest => if c = 'v' then rest else c :: rest

/-- The assignment loop of `newSemver`: `for i, e := range spl { conv, err :=
strconv.Atoi(e); if err != nil { continue }; if conv < 0 { continue };
switch i { case 0: major; case 1: minor; case 2: patch } }`.  The non-negative
`conv` is stored via `Int.toNat` (lossless under the `conv < 0` guard). -/
def assignFields (sv : Semver) (i : Nat) : List (List Char) → Semver
  | [] => sv
  | e :: rest =>
    let sv' :=
      match goAtoi e with
      | none => sv
      | some conv =>
        if conv < 0 then sv
        else if i = 0 then { sv with major := conv.toNat }
        else if i = 1 then { sv with minor := conv.toNat }
        else if i = 2 then { sv with patch := conv.toNat }
        else sv
    assignFields sv' (i + 1) rest

/-- `newSemver(str string) Semver`: empty string is rejected; the literal
`"0.0.0"` yields the zero version; a leading `'v'` is stripped; components
are assigned permissively; an all-zero result other than the literal
`"0.0.0"` is rejected. -/
def newSemver (str : List Char) : Option Semver :=
  if str = [] then none
  else if str = ['0', '.', '0', '.', '0'] then some ⟨0, 0, 0⟩
  else
    let sv := assignFields ⟨0, 0, 0⟩ 0 (splitDot (stripV str))
    if sv.major = 0 ∧ sv.minor = 0 ∧ sv.patch = 0 then none else some sv

/-! ## Command (`command.go`) -/

/-- The two direction constants `DirectionUp` / `DirectionDown`.  Only these
two strings ever inhabit the `direction` type in the program. -/
inductive Dir where
  | up
  | down
deriving DecidableEq, Repr

/-- The `command` struct: SQL text, owning version and direction (the
`db` handle is part of the execution environment, not of the data). -/
structure Cmd where
  query : List Char
  version : Semver
  dir : Dir
deriving DecidableEq, Repr

/-- `(c *command) ShouldRun(version Semver, dir direction, target Semver)
bool` from `command.go` lines 46–64. -/
def Cmd.ShouldRun (c : Cmd) (version : Semver) (dir : Dir) (target : Option Semver) : Bool :=
  match target with
  | some t =>
    if dir = Dir.up then c.version.GreaterThan version && !(c.version.GreaterThan t)
    else !(c.version.GreaterThan version) && c.version.GreaterThan t
  | none =>
    if dir = Dir.down then c.version.Equals version
    else c.version.GreaterThan version

/-! ## Selector (`filterCommands`) -/

/-- `filterCommands(version Semver, commands []Command, dir direction,
targetVersion Semver) []Command`: keep the commands with the requested
direction that pass `ShouldRun` (every direction-matching command when the
current version is `nil`). -/
def filterCommands (version : Option Semver) (cmds : List Cmd) (dir : Dir)
    (targetVersion : Option Semver) : List Cmd :=
  match cmds with
  | [] => []
  | c :: rest =>
    if c.dir ≠ dir then filterCommands version rest dir targetVersion
    else
      match version with
      | none => c :: filterCommands version rest dir targetVersion
      | some v =>
        if c.ShouldRun v dir targetVersion then
          c :: filterCommands version rest dir targetVersion
        else filterCommands version rest dir targetVersion

/-! ## Runner (`runCommands`) -/

/-- Trace of one `runCommands` call: the queries whose `Run` was invoked,
the error values handed to the logger's `Error` method (assuming each such
call returns — see `engineErrorCalls` for why it may not), and the returned
error. -/
structure RunOut where
  attempted : List (List Char)
  logged : List Nat
  err : Option Nat
deriving DecidableEq, Repr

/-- `runCommands(logger Logger, commands []Command, withTransaction bool)
error`: each command's `Run` executes its stored query; with a transaction
the first failure is returned at once, otherwise it is logged and the loop
continues; `nil` is returned at the end. -/
def runCommands (exec : List Char → Option Nat) (withTransaction : Bool) :
    List Cmd → RunOut
  | [] => ⟨[], [], none⟩
  | c :: rest =>
    match exec c.query with
    | none =>
      let o := runCommands exec withTransaction rest
      ⟨c.query :: o.attempted, o.logged, o.err⟩
    | some e =>
      if withTransaction then ⟨[c.query], [], some e⟩
      else
        let o := runCommands exec withTransaction rest
        ⟨c.query :: o.attempted, e :: o.logged, o.err⟩

/-! ## `getLatestVersion` / `getPreviousSemver` -/

/-- `getLatestVersion(commands []Command) Semver`: running maximum over the
commands' versions, starting from `bottomVersion` (the source's
`if sv == nil` branch is dead because the accumulator starts non-nil). -/
def getLatestVersion (cmds : List Cmd) : Semver :=
  cmds.foldl (fun sv c => if c.version.GreaterThan sv then c.version else sv) bottomVersion

/-- `getPreviousSemver(current Semver, commands []Command) Semver`: running
maximum, starting from `bottomVersion`, over the commands' versions that are
neither above the current version (`current.WouldRollback`) nor equal to
it. -/
def getPreviousSemver (current : Semver) (cmds : List Cmd) : Semver :=
  cmds.foldl
    (fun sv c =>
      if current.WouldRollback c.version || c.version.Equals current then sv
      else if c.version.GreaterThan sv then c.version else sv)
    bottomVersion

/-! ## Parser (`engine.go`, `ParseLines`) -/

/-- Error values of the engine (`ErrBadVersioning` etc.); `external` wraps
an error produced by an external collaborator (database, file system,
repository). -/
inductive PErr where
  | badVersioning
  | invalidLastVersion
  | noFilePath
  | nothingToRun
  | external (e : Nat)
deriving DecidableEq, Repr

/-- The constant `versionProlog = "#v"`. -/
def versionProlog : List Char := ['#', 'v']

/-- The constant `upCommand = "#[UP]"`. -/
def upCommand : List Char := ['#', '[', 'U', 'P', ']']

/-- The constant `downCommand = "#[DOWN]"`. -/
def downCommand : List Char := ['#', '[', 'D', 'O', 'W', 'N', ']']

/-- The constant `singleLineComment = "--"`. -/
def singleLineComment : List Char := ['-', '-']

/-- The constant `multiLineCommentStart = "/*"`. -/
def multiLineCommentStart : List Char := ['/', '*']

/-- The constant `multiLineCommentEnd = "*/"`. -/
def multiLineCommentEnd : List Char := ['*', '/']

/-- The mutable state of the `ParseLines` loop. -/
structure PState where
  currentVersion : Option Semver
  lineStack : List (List Char)
  commandStack : List Cmd
  isInsideMultiLineComment : Bool
  dir : Dir
deriving DecidableEq, Repr

/-- One iteration of the `ParseLines` loop over a raw line. -/
def parseStep (st : PState) (line0 : List Char) : Except PErr PState :=
  let line := trimList line0
  if line = upCommand then Except.ok { st with dir := Dir.up }
  else if line = downCommand then Except.ok { st with dir := Dir.down }
  else if !(startsWithList versionProlog line) then
    let line :=
      match findSub singleLineComment line with
      | some idx => line.take idx
      | none => line
    let st1 :=
      if (findSub multiLineCommentStart line).isSome then
        { st with isInsideMultiLineComment := true }
      else st
    if (findSub multiLineCommentEnd line).isSome then
      Except.ok { st1 with isInsideMultiLineComment := false }
    else if st1.isInsideMultiLineComment then Except.ok st1
    else if line = [] then Except.ok st1
    else
      let stack := st1.lineStack ++ [line]
      if endsSemicolon line then
        let cmds :=
          match st1.currentVersion with
          | some v => st1.commandStack ++ [⟨joinSpace stack, v, st1.dir⟩]
          | none => st1.commandStack
        Except.ok { st1 with lineStack := [], commandStack := cmds }
      else Except.ok { st1 with lineStack := stack }
  else
    match splitHashV line with
    | [_, s2] =>
      let st1 := if st.currentVersion.isSome then { st with lineStack := [] } else st
      match newSemver s2 with
      | none => Except.error PErr.badVersioning
      | some sv => Except.ok { st1 with currentVersion := some sv, dir := Dir.up }
    | _ => Except.error PErr.badVersioning

/-- The `ParseLines` loop folded over the input lines. -/
def parseLinesAux (st : PState) : List (List Char) → Except PErr (List Cmd)
  | [] => Except.ok st.commandStack
  | l :: rest =>
    match parseStep st l with
    | Except.error e => Except.error e
    | Except.ok st' => parseLinesAux st' rest

/-- `(e *engine) ParseLines(lines []string) ([]Command, error)`.  (The Go
`if lines == nil` shortcut returns the same empty result as folding over an
empty slice.) -/
def ParseLines (lines : List (List Char)) : Except PErr (List Cmd) :=
  parseLinesAux ⟨none, [], [], false, Dir.up⟩ lines

/-! ## Engine environment and orchestration (`engine.go`, `Process`) -/

/-- The outcomes of every external call one `Process` run can make:
the repository's `DoesExists`/`CreateTable`/`GetLatest`/`Insert`, the file
read (`GetLines`), statement execution (`db.Exec` via `Command.Run`) and
the transaction calls.  `Option Nat`: `none` means the Go call returned a
`nil` error. -/
structure Env where
  tableExists : Bool
  createTableResult : Option Nat
  linesResult : Except PErr (List (List Char))
  latest : Option (List Char)
  exec : List Char → Option Nat
  insertResult : List Char → Option Nat
  startTxResult : Option Nat
  rollbackResult : Option Nat
  commitResult : Option Nat
  withTransaction : Bool

/-- The engine fields mutated across calls: `e.dir` and `e.targetVersion`. -/
structure EngSt where
  dir : Dir
  targetVersion : Option Semver
deriving DecidableEq, Repr

/-- Observable trace of one `Process` call. -/
structure ProcOut where
  result : Option PErr
  createCalled : Bool
  usedDir : Option Dir
  executed : List (List Char)
  loggedErrors : List Nat
  rolledBack : Bool
  inserted : Option (List Char)
  committed : Bool
  finalSt : EngSt

/-- `(e *engine) SetupDatabase() error` as seen through the repository
oracle: nothing to do when `DoesExists()` reports true, otherwise
`CreateTable()` decides the outcome. -/
def setupResult (env : Env) : Option PErr :=
  if env.tableExists then none
  else env.createTableResult.map PErr.external

/-- Resolution of the stored current version in `Process`: no stored row
gives `bottomVersion`; a stored row whose text `newSemver` rejects gives
`ErrInvalidLastVersion`. -/
def resolveCurrent (env : Env) : Except PErr Semver :=
  match env.latest with
  | none => Except.ok bottomVersion
  | some s =>
    match newSemver s with
    | none => Except.error PErr.invalidLastVersion
    | some v => Except.ok v

/-- The direction auto-switch in `Process`: `if e.targetVersion != nil &&
currentVersion.GreaterThan(e.targetVersion) { e.dir = DirectionDown }`. -/
def effDir (st : EngSt) (cv : Semver) : Dir :=
  match st.targetVersion with
  | some t => if cv.GreaterThan t then Dir.down else st.dir
  | none => st.dir

/-- The stages of `Process` up to and including the auto-switch: database
setup, file read, parse, current-version resolution. -/
def preparedCommands (env : Env) (st : EngSt) :
    Except PErr (List Cmd × Semver × Dir) :=
  match setupResult env with
  | some e => Except.error e
  | none =>
    match env.linesResult with
    | Except.error e => Except.error e
    | Except.ok lines =>
      match ParseLines lines with
      | Except.error e => Except.error e
      | Except.ok cmds =>
        match resolveCurrent env with
        | Except.error e => Except.error e
        | Except.ok cv => Except.ok (cmds, cv, effDir st cv)

/-- The tail of `Process` after the auto-switch: selection, the
nothing-to-run check, transaction start, execution with rollback-on-failure,
computation and insertion of the new latest version, commit. -/
def processRun (env : Env) (st : EngSt) (cmds : List Cmd) (cv : Semver) (d : Dir) :
    ProcOut :=
  let cc := !env.tableExists
  let stF : EngSt := ⟨d, st.targetVersion⟩
  let filtered := filterCommands (some cv) cmds d st.targetVersion
  if filtered.isEmpty then
    ⟨some PErr.nothingToRun, cc, some d, [], [], false, none, false, stF⟩
  else
    match (if env.withTransaction then env.startTxResult else none) with
    | some e => ⟨some (PErr.external e), cc, some d, [], [], false, none, false, stF⟩
    | none =>
      let r := runCommands env.exec env.withTransaction filtered
      match r.err with
      | some e =>
        if env.withTransaction then
          match env.rollbackResult with
          | some re =>
            ⟨some (PErr.external re), cc, some d, r.attempted, r.logged, true, none, false, stF⟩
          | none =>
            ⟨some (PErr.external e), cc, some d, r.attempted, r.logged, true, none, false, stF⟩
        else ⟨some (PErr.external e), cc, some d, r.attempted, r.logged, false, none, false, stF⟩
      | none =>
        let newLatest : Semver :=
          match st.targetVersion with
          | some t => t
          | none => if d = Dir.up then getLatestVersion cmds else getPreviousSemver cv cmds
        let text := Semver.ToString newLatest
        match env.insertResult text with
        | some e =>
          if env.withTransaction then
            match env.rollbackResult with
            | some re =>
              ⟨some (PErr.external re), cc, some d, r.attempted, r.logged, true, some text,
                false, stF⟩
            | none =>
              ⟨some (PErr.external e), cc, some d, r.attempted, r.logged, true, some text,
                false, stF⟩
          else
            ⟨some (PErr.external e), cc, some d, r.attempted, r.logged, false, some text,
              false, stF⟩
        | none =>
          match (if env.withTransaction then env.commitResult else none) with
          | some e =>
            ⟨some (PErr.external e), cc, some d, r.attempted, r.logged, false, some text,
              false, stF⟩
          | none =>
            ⟨none, cc, some d, r.attempted, r.logged, false, some text,
              env.withTransaction, stF⟩

/-- `(e *engine) Process() error` over the oracle environment. -/
def Process (env : Env) (st : EngSt) : ProcOut :=
  match preparedCommands env st with
  | Except.error e => ⟨some e, !env.tableExists, none, [], [], false, none, false, st⟩
  | Except.ok (cmds, cv, d) => processRun env st cmds cv d

/-- `(e *engine) ProcessWithDirection(d direction) error`: sets the
direction, runs `Process`, and a deferred function resets the direction to
`DirectionUp` (and touches nothing else). -/
def ProcessWithDirection (env : Env) (st : EngSt) (d : Dir) : ProcOut :=
  let o := Process env { st with dir := d }
  { o with finalSt := { o.finalSt with dir := Dir.up } }

/-- `(e *engine) ProcessWithTargetVersion(v string) error`: a malformed
version returns `ErrBadVersioning` before anything is set; otherwise the
target is set, `Process` runs, and a deferred function resets the target to
`nil` (and touches nothing else). -/
def ProcessWithTargetVersion (env : Env) (st : EngSt) (v : List Char) : ProcOut :=
  match newSemver v with
  | none => ⟨some PErr.badVersioning, false, none, [], [], false, none, false, st⟩
  | some sv =>
    let o := Process env { st with targetVersion := some sv }
    { o with finalSt := { o.finalSt with targetVersion := none } }

/-! ## Migrations repository (`repositories/migrations.go`) -/

/-- `(mr *migrationsRepository) DoesExists() bool`, at the level of the
underlying `row.Scan` call: the body is `return row.Scan(&name) != nil`.
`scanErr = none` models a successful scan — the `INFORMATION_SCHEMA` query
found a row, i.e. the table exists; `some e` models `Scan` failing (e.g.
`sql.ErrNoRows` when the table is absent). -/
def DoesExists (scanErr : Option Nat) : Bool :=
  scanErr.isSome

/-- `SetupDatabase` over the scan-level `DoesExists`: returns whether
`CreateTable` was invoked, and the resulting error. -/
def SetupDatabaseScan (scanErr : Option Nat) (createResult : Option Nat) :
    Bool × Option Nat :=
  if DoesExists scanErr then (false, none) else (true, createResult)

/-! ## Engine logging (`engine.go`, `Info` / `Error`) -/

/-- `(e *engine) Error(line string)` from `engine.go`: the body is
`if e.logger != nil { e.Error(line) }` — the method invokes itself, not the
attached logger.  `engineErrorCalls fuel loggerAttached` unfolds the
recursion for `fuel` steps and returns the list of messages that reached the
underlying logger's `Error` method if the call terminated within the fuel,
and `none` otherwise. -/
def engineErrorCalls : Nat → Bool → Option (List Nat)
  | 0, _ => none
  | _ + 1, false => some []
  | n + 1, true => engineErrorCalls n true

/-! ## Spec-side definitions used in claim statements -/

/-- The per-statement inclusion condition exactly as the claim words it
(spec-side definition, to be compared with `filterCommands`/`ShouldRun`):
direction must match, and the version condition depends on the presence of a
target and on the direction. -/
def specSelectedB (c : Cmd) (cur : Semver) (dir : Dir) (target : Option Semver) : Bool :=
  decide (c.dir = dir) &&
    match target, dir with
    | some t, Dir.up => c.version.GreaterThan cur && !(c.version.GreaterThan t)
    | some t, Dir.down => !(c.version.GreaterThan cur) && c.version.GreaterThan t
    | none, Dir.up => c.version.GreaterThan cur
    | none, Dir.down => decide (c.version = cur)

/-- One step of a running lexicographic maximum. -/
def maxStep (sv v : Semver) : Semver := if v.GreaterThan sv then v else sv

/-- Spec-side characterization (the claim's words): `r` is the maximum
version over `vs`, or the zero version when `vs` is empty. -/
def isMaxOrFloor (r : Semver) (vs : List Semver) : Prop :=
  (∀ v ∈ vs, v.GreaterThan r = false) ∧ ((vs = [] ∧ r = bottomVersion) ∨ r ∈ vs)

/-! ## Concrete fixtures used by witnesses and counterexamples -/

/-- Default engine state: direction up, no target (as set by `New`). -/
def stUp : EngSt := ⟨Dir.up, none⟩

/-- A one-block migration script. -/
def linesOne : List (List Char) := ["#v1".toList, "a;".toList]

/-- The statements `ParseLines` produces from `linesOne`. -/
def cmdsOne : List Cmd := [⟨"a;".toList, ⟨1, 0, 0⟩, Dir.up⟩]

/-- Environment for a straightforwardly successful non-transactional run. -/
def envOne : Env :=
  { tableExists := true
    createTableResult := none
    linesResult := Except.ok linesOne
    latest := none
    exec := fun _ => none
    insertResult := fun _ => none
    startTxResult := none
    rollbackResult := none
    commitResult := none
    withTransaction := false }

/-- Execution oracle that fails exactly on the query `b;`. -/
def execFailB : List Char → Option Nat :=
  fun q => if q = "b;".toList then some 7 else none

/-- A three-block script whose middle statement fails under `execFailB`. -/
def linesThree : List (List Char) :=
  ["#v1".toList, "a;".toList, "#v2".toList, "b;".toList, "#v3".toList, "c;".toList]

/-- First statement of `linesThree`. -/
def cmdA : Cmd := ⟨"a;".toList, ⟨1, 0, 0⟩, Dir.up⟩

/-- Second statement of `linesThree` (the failing one under `execFailB`). -/
def cmdB : Cmd := ⟨"b;".toList, ⟨2, 0, 0⟩, Dir.up⟩

/-- Third statement of `linesThree`. -/
def cmdC : Cmd := ⟨"c;".toList, ⟨3, 0, 0⟩, Dir.up⟩

/-- The statements `ParseLines` produces from `linesThree`. -/
def cmdsThree : List Cmd := [cmdA, cmdB, cmdC]

/-- Environment for a transactional run over `linesThree` with `execFailB`. -/
def envTx : Env :=
  { tableExists := true
    createTableResult := none
    linesResult := Except.ok linesThree
    latest := none
    exec := execFailB
    insertResult := fun _ => none
    startTxResult := none
    rollbackResult := none
    commitResult := none
    withTransaction := true }

/-- Environment with an empty script and stored current version `1.2.0`. -/
def envStored : Env :=
  { tableExists := true
    createTableResult := none
    linesResult := Except.ok []
    latest := some ("1.2.0".toList)
    exec := fun _ => none
    insertResult := fun _ => none
    startTxResult := none
    rollbackResult := none
    commitResult := none
    withTransaction := false }

/-- A parser state in the middle of a version block (version `1.0.0`
established, empty buffer, no commands yet). -/
def stateInBlock : PState := ⟨some ⟨1, 0, 0⟩, [], [], false, Dir.up⟩

/-- Engine state with an explicit target version `1.0.0`. -/
def stTarget : EngSt := ⟨Dir.up, some ⟨1, 0, 0⟩⟩

/-! ## Order facts about `Semver.GreaterThan` -/

theorem Semver.gt_iff (a b : Semver) :
    a.GreaterThan b = true ↔
      b.major < a.major ∨ (a.major = b.major ∧ b.minor < a.minor) ∨
        (a.major = b.major ∧ a.minor = b.minor ∧ b.patch < a.patch) := by
  unfold Semver.GreaterThan
  repeat' split
  all_goals simp_all

theorem Semver.equals_eq_decide (a b : Semver) : a.Equals b = decide (a = b) := by
  cases a
  cases b
  unfold Semver.Equals
  rw [decide_eq_decide]
  simp [Semver.mk.injEq]

theorem Semver.wr_iff (a b : Semver) :
    a.WouldRollback b = true ↔
      a.major < b.major ∨ (a.major = b.major ∧ a.minor < b.minor) ∨
        (a.major = b.major ∧ a.minor = b.minor ∧ a.patch < b.patch) := by
  unfold Semver.WouldRollback
  repeat' split
  all_goals simp_all

theorem Semver.wr_eq_gt (a b : Semver) : a.WouldRollback b = b.GreaterThan a := by
  cases h1 : a.WouldRollback b <;> cases h2 : b.GreaterThan a
  · rfl
  · have g2 := (Semver.gt_iff b a).mp h2
    have g1 : ¬(a.WouldRollback b = true) := by simp [h1]
    rw [Semver.wr_iff] at g1
    omega
  · have g1 := (Semver.wr_iff a b).mp h1
    have g2 : ¬(b.GreaterThan a = true) := by simp [h2]
    rw [Semver.gt_iff] at g2
    omega
  · rfl

theorem Semver.gt_irrefl (a : Semver) : a.GreaterThan a = false := by
  have h := Semver.gt_iff a a
  cases hg : a.GreaterThan a
  · rfl
  · exact absurd (h.mp hg) (by omega)

theorem Semver.gt_asymm {a b : Semver} (h : a.GreaterThan b = true) :
    b.GreaterThan a = false := by
  cases hg : b.GreaterThan a
  · rfl
  · have h1 := (Semver.gt_iff a b).mp h
    have h2 := (Semver.gt_iff b a).mp hg
    omega

theorem Semver.gt_trans {a b c : Semver} (h1 : a.GreaterThan b = true)
    (h2 : b.GreaterThan c = true) : a.GreaterThan c = true := by
  have g1 := (Semver.gt_iff a b).mp h1
  have g2 := (Semver.gt_iff b c).mp h2
  exact (Semver.gt_iff a c).mpr (by omega)

theorem Semver.gt_total {a b : Semver} (h1 : a.GreaterThan b = false)
    (h2 : b.GreaterThan a = false) : a = b := by
  have g1 : ¬(a.GreaterThan b = true) := by simp [h1]
  have g2 : ¬(b.GreaterThan a = true) := by simp [h2]
  rw [Semver.gt_iff] at g1 g2
  cases a
  cases b
  simp only [Semver.mk.injEq]
  simp only [not_or, not_and, not_lt] at g1 g2
  omega

theorem Semver.gt_bottom (v : Semver) : bottomVersion.GreaterThan v = false := by
  cases hg : bottomVersion.GreaterThan v
  · rfl
  · have h := (Semver.gt_iff bottomVersion v).mp hg
    exact absurd h (by simp [bottomVersion])

/-! ## Claim C1: the Selector returns exactly the claimed subsequence -/

theorem shouldRun_eq_spec (c : Cmd) (cur : Semver) (dir : Dir) (target : Option Semver) :
    c.ShouldRun cur dir target =
      (match target, dir with
       | some t, Dir.up => c.version.GreaterThan cur && !(c.version.GreaterThan t)
       | some t, Dir.down => !(c.version.GreaterThan cur) && c.version.GreaterThan t
       | none, Dir.up => c.version.GreaterThan cur
       | none, Dir.down => decide (c.version = cur)) := by
  cases target <;> cases dir <;> simp [Cmd.ShouldRun, Semver.equals_eq_decide]

/-- C1: for every statement list, current version, direction and optional
target version, the Selector returns exactly the subsequence, in input
order, of statements whose direction equals the requested direction and
that satisfy the claim's version conditions: with a target and direction
Up, version strictly greater than current and not greater than target; with
a target and direction Down, version not greater than current and strictly
greater than target; with no target and direction Up, version strictly
greater than current; with no target and direction Down, version equal to
current. -/
theorem c1_selector_exact (cur : Semver) (cmds : List Cmd) (dir : Dir)
    (target : Option Semver) :
    filterCommands (some cur) cmds dir target
      = cmds.filter (fun c => specSelectedB c cur dir target) := by
  have hfun : ∀ c : Cmd, specSelectedB c cur dir target
      = (decide (c.dir = dir) && c.ShouldRun cur dir target) := by
    intro c
    unfold specSelectedB
    rw [shouldRun_eq_spec]
  simp only [hfun]
  induction cmds with
  | nil => rfl
  | cons c rest ih =>
    rw [List.filter_cons]
    by_cases hd : c.dir = dir
    · cases hs : c.ShouldRun cur dir target
      · simp [filterCommands, hd, hs, ih]
      · simp [filterCommands, hd, hs, ih]
    · simp [filterCommands, hd, ih]

/-! ## Claim C2: the version text persisted on success -/

theorem maxFold_go (vs : List Semver) : ∀ acc : Semver,
    (vs.foldl maxStep acc = acc ∨ vs.foldl maxStep acc ∈ vs) ∧
      acc.GreaterThan (vs.foldl maxStep acc) = false ∧
      ∀ v ∈ vs, v.GreaterThan (vs.foldl maxStep acc) = false := by
  induction vs with
  | nil =>
    intro acc
    exact ⟨Or.inl rfl, Semver.gt_irrefl acc, by simp⟩
  | cons v vs ih =>
    intro acc
    obtain ⟨hmem, hacc, hub⟩ := ih (maxStep acc v)
    have hfold : (v :: vs).foldl maxStep acc = vs.foldl maxStep (maxStep acc v) := rfl
    rw [hfold]
    by_cases hv : v.GreaterThan acc = true
    · have hm : maxStep acc v = v := by simp [maxStep, hv]
      rw [hm] at hmem hacc hub ⊢
      refine ⟨?_, ?_, ?_⟩
      · rcases hmem with h | h
        · exact Or.inr (by simp [h])
        · exact Or.inr (by simp [h])
      · cases hga : acc.GreaterThan (vs.foldl maxStep v)
        · rfl
        · have := Semver.gt_trans hv hga
          simp [this] at hacc
      · intro w hw
        rcases List.mem_cons.mp hw with h | h
        · subst h
          exact hacc
        · exact hub w h
    · have hm : maxStep acc v = acc := by
        simp only [maxStep, ite_eq_right_iff]
        intro hc
        exact absurd hc hv
      rw [hm] at hmem hacc hub ⊢
      refine ⟨?_, ?_, ?_⟩
      · rcases hmem with h | h
        · exact Or.inl h
        · exact Or.inr (by simp [h])
      · exact hacc
      · intro w hw
        rcases List.mem_cons.mp hw with h | h
        · subst h
          cases hgw : w.GreaterThan (vs.foldl maxStep acc)
          · rfl
          · exfalso
            cases hav : acc.GreaterThan w
            · have heq := Semver.gt_total (by simpa using hv) hav
              rw [heq] at hgw
              simp [hgw] at hacc
            · have := Semver.gt_trans hav hgw
              simp [this] at hacc
        · exact hub w h

theorem maxFold_spec (vs : List Semver) :
    isMaxOrFloor (vs.foldl maxStep bottomVersion) vs := by
  obtain ⟨hmem, _, hub⟩ := maxFold_go vs bottomVersion
  refine ⟨hub, ?_⟩
  rcases hmem with h | h
  · cases vs with
    | nil => exact Or.inl ⟨rfl, h⟩
    | cons v vs' =>
      have hgv := hub v (by simp)
      rw [h] at hgv
      have := Semver.gt_total hgv (Semver.gt_bottom v)
      rw [h, ← this]
      exact Or.inr (by simp)
  · exact Or.inr h

theorem getLatestVersion_eq (cmds : List Cmd) :
    getLatestVersion cmds = (cmds.map Cmd.version).foldl maxStep bottomVersion := by
  unfold getLatestVersion maxStep
  rw [List.foldl_map]

theorem keep_iff (cur v : Semver) :
    (cur.WouldRollback v || v.Equals cur)
      = !(cur.GreaterThan v && !(decide (v = cur))) := by
  rw [Semver.wr_eq_gt, Semver.equals_eq_decide]
  by_cases hv : v = cur
  · subst hv
    simp [Semver.gt_irrefl]
  · simp only [hv, decide_False, Bool.or_false, Bool.not_false, Bool.and_true]
    cases hg : cur.GreaterThan v
    · cases hg2 : v.GreaterThan cur
      · exact absurd (Semver.gt_total hg2 hg) hv
      · simp
    · simp [Semver.gt_asymm hg]

theorem prevFold_go (cur : Semver) (cmds : List Cmd) : ∀ acc : Semver,
    cmds.foldl
        (fun sv c =>
          if cur.WouldRollback c.version || c.version.Equals cur then sv
          else if c.version.GreaterThan sv then c.version else sv)
        acc
      = ((cmds.map Cmd.version).filter
          (fun v => cur.GreaterThan v && !(decide (v = cur)))).foldl maxStep acc := by
  induction cmds with
  | nil => intro acc; rfl
  | cons c rest ih =>
    intro acc
    rw [List.foldl_cons, List.map_cons, List.filter_cons]
    by_cases hskip : (cur.WouldRollback c.version || c.version.Equals cur) = true
    · have hpred : (cur.GreaterThan c.version && !(decide (c.version = cur))) = false := by
        have hk := keep_iff cur c.version
        rw [hskip] at hk
        cases hp : (cur.GreaterThan c.version && !(decide (c.version = cur)))
        · rfl
        · rw [hp] at hk
          simp at hk
      simp only [hskip, hpred, eq_self_iff_true, if_true, Bool.false_eq_true, if_false]
      exact ih acc
    · have hskip' : (cur.WouldRollback c.version || c.version.Equals cur) = false := by
        simpa using hskip
      have hpred : (cur.GreaterThan c.version && !(decide (c.version = cur))) = true := by
        have hk := keep_iff cur c.version
        rw [hskip'] at hk
        cases hp : (cur.GreaterThan c.version && !(decide (c.version = cur)))
        · rw [hp] at hk
          simp at hk
        · rfl
      simp only [hskip', hpred, eq_self_iff_true, if_true, Bool.false_eq_true, if_false,
        List.foldl_cons]
      rw [show (if c.version.GreaterThan acc = true then c.version else acc)
          = maxStep acc c.version from rfl]
      exact ih (maxStep acc c.version)

theorem getPreviousSemver_eq (cur : Semver) (cmds : List Cmd) :
    getPreviousSemver cur cmds
      = ((cmds.map Cmd.version).filter
          (fun v => cur.GreaterThan v && !(decide (v = cur)))).foldl maxStep bottomVersion := by
  unfold getPreviousSemver
  exact prevFold_go cur cmds bottomVersion

theorem effDir_none (st : EngSt) (cv : Semver) (h : st.targetVersion = none) :
    effDir st cv = st.dir := by
  unfold effDir
  rw [h]

theorem processRun_success_inserted (env : Env) (st : EngSt) (cmds : List Cmd)
    (cv : Semver) (d : Dir)
    (hs : (processRun env st cmds cv d).result = none) :
    (processRun env st cmds cv d).inserted
      = some (Semver.ToString
          (match st.targetVersion with
           | some t => t
           | none =>
             if d = Dir.up then getLatestVersion cmds else getPreviousSemver cv cmds)) := by
  simp only [processRun] at hs ⊢
  repeat' split at hs
  all_goals simp_all

/-- C2: on a successful `Process` run, the version text inserted into the
tracking table is: the target version when an explicit target was given;
otherwise, for direction Up, the maximum version over the full parsed
statement set (the zero version `0.0.0` if that set is empty); otherwise
(direction Down with no target), the greatest version among statements
strictly below and not equal to the current version (the zero version if
none qualifies). -/
theorem c2_inserted_version (env : Env) (st : EngSt) (lines : List (List Char))
    (cmds : List Cmd) (cv : Semver)
    (hl : env.linesResult = Except.ok lines)
    (hp : ParseLines lines = Except.ok cmds)
    (hc : resolveCurrent env = Except.ok cv)
    (hs : (Process env st).result = none) :
    ∃ r, (Process env st).inserted = some (Semver.ToString r) ∧
      (match st.targetVersion with
       | some t => r = t
       | none =>
         match st.dir with
         | Dir.up => isMaxOrFloor r (cmds.map Cmd.version)
         | Dir.down =>
           isMaxOrFloor r ((cmds.map Cmd.version).filter
             (fun v => cv.GreaterThan v && !(decide (v = cv))))) := by
  cases hset : setupResult env with
  | some e =>
    have hPe : Process env st
        = ⟨some e, !env.tableExists, none, [], [], false, none, false, st⟩ := by
      unfold Process preparedCommands
      rw [hset]
    rw [hPe] at hs
    simp at hs
  | none =>
    have hprep : preparedCommands env st = Except.ok (cmds, cv, effDir st cv) := by
      simp only [preparedCommands, hset, hl, hp, hc]
    have hP : Process env st = processRun env st cmds cv (effDir st cv) := by
      unfold Process
      rw [hprep]
    rw [hP] at hs ⊢
    have hins := processRun_success_inserted env st cmds cv (effDir st cv) hs
    cases ht : st.targetVersion with
    | some t =>
      refine ⟨t, ?_, rfl⟩
      rw [ht] at hins
      simpa using hins
    | none =>
      have hd : effDir st cv = st.dir := effDir_none st cv ht
      rw [hd] at hins ⊢
      cases hdir : st.dir with
      | up =>
        refine ⟨getLatestVersion cmds, ?_, ?_⟩
        · rw [ht, hdir] at hins
          simpa using hins
        · show isMaxOrFloor (getLatestVersion cmds) (cmds.map Cmd.version)
          rw [getLatestVersion_eq]
          exact maxFold_spec _
      | down =>
        refine ⟨getPreviousSemver cv cmds, ?_, ?_⟩
        · rw [ht, hdir] at hins
          simpa using hins
        · show isMaxOrFloor (getPreviousSemver cv cmds)
            ((cmds.map Cmd.version).filter (fun v => cv.GreaterThan v && !(decide (v = cv))))
          rw [getPreviousSemver_eq]
          exact maxFold_spec _

theorem c2_inserted_version_witness :
    envOne.linesResult = Except.ok linesOne ∧ ParseLines linesOne = Except.ok cmdsOne ∧
      resolveCurrent envOne = Except.ok bottomVersion ∧
      (Process envOne stUp).result = none ∧
      (∃ r, (Process envOne stUp).inserted = some (Semver.ToString r) ∧
        (match stUp.targetVersion with
         | some t => r = t
         | none =>
           match stUp.dir with
           | Dir.up => isMaxOrFloor r (cmdsOne.map Cmd.version)
           | Dir.down =>
             isMaxOrFloor r ((cmdsOne.map Cmd.version).filter
               (fun v => bottomVersion.GreaterThan v && !(decide (v = bottomVersion)))))) :=
  ⟨rfl, rfl, rfl, rfl,
    c2_inserted_version envOne stUp linesOne cmdsOne bottomVersion rfl rfl rfl rfl⟩

/-! ## Claim C3: transactional runs stop at the first failure -/

theorem runCommands_first_failure (exec : List Char → Option Nat) :
    ∀ (pre : List Cmd) (c : Cmd) (post : List Cmd) (e : Nat),
      (∀ p ∈ pre, exec p.query = none) → exec c.query = some e →
      runCommands exec true (pre ++ c :: post)
        = ⟨(pre ++ [c]).map Cmd.query, [], some e⟩ := by
  intro pre
  induction pre with
  | nil =>
    intro c post e _ h2
    simp [runCommands, h2]
  | cons p pre' ih =>
    intro c post e h1 h2
    have hp : exec p.query = none := h1 p (by simp)
    have h1' : ∀ q ∈ pre', exec q.query = none := fun q hq => h1 q (by simp [hq])
    have hrec := ih c post e h1' h2
    simp [runCommands, hp, hrec]

/-- C3: in a transactional run, `runCommands` stops at the first statement
whose execution fails — the attempted statements are exactly the successful
prefix plus the failing one, nothing is logged, and the original error is
returned — and `Process` then returns that original execution error, not a
rollback error, whenever the attempted rollback itself succeeds. -/
theorem c3_transactional_first_failure (exec : List Char → Option Nat)
    (pre : List Cmd) (c : Cmd) (post : List Cmd) (e : Nat)
    (h1 : ∀ p ∈ pre, exec p.query = none) (h2 : exec c.query = some e) :
    runCommands exec true (pre ++ c :: post)
        = ⟨(pre ++ [c]).map Cmd.query, [], some e⟩ ∧
      ∀ env st cmds cv d, env.exec = exec → env.withTransaction = true →
        env.startTxResult = none → env.rollbackResult = none →
        preparedCommands env st = Except.ok (cmds, cv, d) →
        filterCommands (some cv) cmds d st.targetVersion = pre ++ c :: post →
        (Process env st).result = some (PErr.external e) ∧
          (Process env st).executed = (pre ++ [c]).map Cmd.query := by
  have hrun := runCommands_first_failure exec pre c post e h1 h2
  refine ⟨hrun, ?_⟩
  intro env st cmds cv d henv htx hst hrb hprep hfilt
  have hP : Process env st = processRun env st cmds cv d := by
    unfold Process
    rw [hprep]
  have hne : (pre ++ c :: post).isEmpty = false := by
    cases pre <;> simp
  rw [hP]
  simp only [processRun, hfilt, hne, htx, hst, hrb, henv, hrun]
  simp

theorem c3_transactional_first_failure_witness :
    (∀ p ∈ [cmdA], execFailB p.query = none) ∧ execFailB cmdB.query = some 7 ∧
      (Process envTx stUp).result = some (PErr.external 7) ∧
      (Process envTx stUp).executed = [cmdA.query, cmdB.query] := by
  have h1 : ∀ p ∈ [cmdA], execFailB p.query = none := by decide
  have h2 : execFailB cmdB.query = some 7 := by decide
  have hmain := c3_transactional_first_failure execFailB [cmdA] cmdB [cmdC] 7 h1 h2
  have hpart := hmain.2 envTx stUp cmdsThree bottomVersion Dir.up rfl rfl rfl rfl rfl
    (by decide)
  exact ⟨h1, h2, hpart.1, by simpa using hpart.2⟩

/-! ## Claim C4: the table-existence check is inverted in the code -/

/-- C4 (code bug): at the `row.Scan` level, `DoesExists` returns `Scan != nil`,
so when the `INFORMATION_SCHEMA` query finds the table (the scan succeeds,
`scanErr = none`) `DoesExists` reports `false` and `SetupDatabase` invokes
`CreateTable` on the existing table, propagating its error; and when the
table is absent (the scan fails, e.g. with `sql.ErrNoRows`) `DoesExists`
reports `true` and no creation is attempted — the opposite of the claim and
of the method's own doc comment. -/
theorem c4_setup_table_check_inverted :
    DoesExists none = false ∧ SetupDatabaseScan none (some 7) = (true, some 7) ∧
      DoesExists (some 3) = true ∧ SetupDatabaseScan (some 3) (some 7) = (false, none) := by
  decide

/-! ## Claim C7: the direction auto-switch -/

theorem processRun_usedDir (env : Env) (st : EngSt) (cmds : List Cmd) (cv : Semver)
    (d : Dir) : (processRun env st cmds cv d).usedDir = some d := by
  simp only [processRun]
  repeat' split
  all_goals rfl

/-- C7: whenever `Process` runs with a target version set and the stored
current version is strictly greater than that target, the direction handed
to the Selector is Down, regardless of the configured direction (runs that
abort before selection never invoke the Selector at all). -/
theorem c7_auto_switch_down (env : Env) (st : EngSt) (t cv : Semver)
    (ht : st.targetVersion = some t)
    (hc : resolveCurrent env = Except.ok cv)
    (hgt : cv.GreaterThan t = true) :
    (Process env st).usedDir = none ∨ (Process env st).usedDir = some Dir.down := by
  cases hset : setupResult env with
  | some e =>
    left
    simp only [Process, preparedCommands, hset]
  | none =>
    cases hl : env.linesResult with
    | error e =>
      left
      simp only [Process, preparedCommands, hset, hl]
    | ok lines =>
      cases hp : ParseLines lines with
      | error e =>
        left
        simp only [Process, preparedCommands, hset, hl, hp]
      | ok cmds =>
        right
        have hprep : preparedCommands env st = Except.ok (cmds, cv, effDir st cv) := by
          simp only [preparedCommands, hset, hl, hp, hc]
        have hd : effDir st cv = Dir.down := by
          unfold effDir
          rw [ht]
          simp [hgt]
        have hP : Process env st = processRun env st cmds cv (effDir st cv) := by
          unfold Process
          rw [hprep]
        rw [hP, hd]
        exact processRun_usedDir env st cmds cv Dir.down

theorem c7_auto_switch_down_witness :
    stTarget.targetVersion = some ⟨1, 0, 0⟩ ∧
      resolveCurrent envStored = Except.ok ⟨1, 2, 0⟩ ∧
      Semver.GreaterThan ⟨1, 2, 0⟩ ⟨1, 0, 0⟩ = true ∧
      ((Process envStored stTarget).usedDir = none ∨
        (Process envStored stTarget).usedDir = some Dir.down) :=
  ⟨rfl, rfl, by decide,
    c7_auto_switch_down envStored stTarget ⟨1, 0, 0⟩ ⟨1, 2, 0⟩ rfl rfl (by decide)⟩

/-! ## Claim C8: the engine's logging methods never reach the logger -/

/-- C8 (code bug): with a logger attached, the engine's `Error` method —
whose body is `if e.logger != nil { e.Error(line) }` — recurses into itself
and never delivers the message to the attached logger's `Error` method, for
any recursion depth; so a non-transactional run's statement failures are
never reported through the logger, contrary to the claim and to the
method's own doc comment. -/
theorem c8_engine_error_never_logs : ∀ fuel : Nat, engineErrorCalls fuel true = none := by
  intro fuel
  induction fuel with
  | zero => rfl
  | succ n ih => exact ih

/-! ## Claim C10: engine state after the wrapper calls -/

theorem process_finalSt_target (env : Env) (st : EngSt) :
    (Process env st).finalSt.targetVersion = st.targetVersion := by
  unfold Process
  cases hprep : preparedCommands env st with
  | error e => rfl
  | ok x =>
    obtain ⟨cmds, cv, d⟩ := x
    simp only [processRun]
    repeat' split
    all_goals rfl

/-- C10 counterexample: with stored version `1.2.0`, a
`ProcessWithTargetVersion "1.0.0"` call auto-switches the direction to Down
and its deferred reset clears only the target, so the engine is left with
direction Down — not the default Up the claim requires; and a
`ProcessWithDirection` call on an engine whose target version was set at
construction leaves that target version in place. -/
theorem c10_reset_counterexample :
    (ProcessWithTargetVersion envStored stUp ("1.0.0".toList)).finalSt.dir = Dir.down ∧
      (ProcessWithDirection envStored ⟨Dir.up, some ⟨2, 0, 0⟩⟩ Dir.up).finalSt.targetVersion
        = some ⟨2, 0, 0⟩ :=
  ⟨rfl, rfl⟩

/-- C10 (amended): after `ProcessWithDirection` returns, the direction is
reset to Up but the target version is left exactly as it was; after
`ProcessWithTargetVersion` returns, the target version is cleared when the
argument parses (on a malformed argument the state is untouched), but the
direction is left as `Process` set it — in particular it remains Down when
the call auto-switched. -/
theorem c10_reset_amended (env : Env) (st : EngSt) (d : Dir) (v : List Char) :
    (ProcessWithDirection env st d).finalSt.dir = Dir.up ∧
      (ProcessWithDirection env st d).finalSt.targetVersion = st.targetVersion ∧
      (ProcessWithTargetVersion env st v).finalSt.targetVersion
        = (if (newSemver v).isSome then none else st.targetVersion) ∧
      (ProcessWithTargetVersion env st v).finalSt.dir
        = (match newSemver v with
           | none => st.dir
           | some sv => (Process env { st with targetVersion := some sv }).finalSt.dir) := by
  refine ⟨rfl, ?_, ?_, ?_⟩
  · show (Process env { st with dir := d }).finalSt.targetVersion = st.targetVersion
    exact process_finalSt_target env _
  · cases hv : newSemver v
    · simp [ProcessWithTargetVersion, hv]
    · simp [ProcessWithTargetVersion, hv]
  · cases hv : newSemver v
    · simp [ProcessWithTargetVersion, hv]
    · simp [ProcessWithTargetVersion, hv]

/-! ## Claim C5: single-line comments and statement termination -/

/-- C5 counterexample: on the claim's own example line
`DROP TABLE x; -- note`, the text from `--` onward is stripped but the
remainder keeps its trailing space, so it does not end with `;` and no
Statement is emitted — `ParseLines` returns the empty list, where the claim
requires an emitted Statement. -/
theorem c5_comment_counterexample :
    findSub singleLineComment (trimList ("DROP TABLE x; -- note".toList)) = some 14 ∧
      (trimList ("DROP TABLE x; -- note".toList)).take 14 = "DROP TABLE x; ".toList ∧
      ParseLines ["#v1".toList, "DROP TABLE x; -- note".toList] = Except.ok [] :=
  ⟨rfl, rfl, rfl⟩

/-- C5 (amended): for every parsed line containing the marker `--`, the
parser strips the text from the marker onward; if the remaining text — as
truncated, with no re-trimming — itself ends with `;` while a version is
established (and the truncated text contains no block-comment marker), the
buffered lines joined by single spaces are emitted as a Statement.  In
particular `DROP TABLE x;-- note`, with the marker immediately after the
`;`, terminates the pending statement and causes it to be emitted, while
`DROP TABLE x; -- note` (whitespace before the marker) does not. -/
theorem c5_comment_strip_amended :
    (∀ (st : PState) (line : List Char) (v : Semver) (i : Nat),
      st.isInsideMultiLineComment = false →
      st.currentVersion = some v →
      trimList line ≠ upCommand →
      trimList line ≠ downCommand →
      startsWithList versionProlog (trimList line) = false →
      findSub singleLineComment (trimList line) = some i →
      findSub multiLineCommentStart ((trimList line).take i) = none →
      findSub multiLineCommentEnd ((trimList line).take i) = none →
      (trimList line).take i ≠ [] →
      endsSemicolon ((trimList line).take i) = true →
      parseStep st line = Except.ok
        { st with
          lineStack := []
          commandStack := st.commandStack ++
            [⟨joinSpace (st.lineStack ++ [(trimList line).take i]), v, st.dir⟩] }) ∧
    ParseLines ["#v1".toList, "DROP TABLE x;-- note".toList]
      = Except.ok [⟨"DROP TABLE x;".toList, ⟨1, 0, 0⟩, Dir.up⟩] := by
  refine ⟨?_, rfl⟩
  intro st line v i hml hv hup hdn hpr hidx hnml1 hnml2 hne hsc
  simp only [parseStep, if_neg hup, if_neg hdn, hpr, Bool.not_false, if_true, hidx,
    hnml1, hnml2, Option.isSome_none, Bool.false_eq_true, if_false, hml, hne, hsc,
    hv, ite_true]

theorem c5_comment_strip_amended_witness :
    stateInBlock.isInsideMultiLineComment = false ∧
      stateInBlock.currentVersion = some ⟨1, 0, 0⟩ ∧
      findSub singleLineComment (trimList ("DROP TABLE x;-- note".toList)) = some 13 ∧
      endsSemicolon ((trimList ("DROP TABLE x;-- note".toList)).take 13) = true ∧
      parseStep stateInBlock ("DROP TABLE x;-- note".toList) = Except.ok
        { stateInBlock with
          lineStack := []
          commandStack := stateInBlock.commandStack ++
            [⟨joinSpace (stateInBlock.lineStack ++
                [(trimList ("DROP TABLE x;-- note".toList)).take 13]),
              ⟨1, 0, 0⟩, stateInBlock.dir⟩] } :=
  ⟨rfl, rfl, rfl, rfl,
    c5_comment_strip_amended.1 stateInBlock ("DROP TABLE x;-- note".toList) ⟨1, 0, 0⟩ 13
      rfl rfl (by decide) (by decide) (by decide) (by decide) (by decide) (by decide)
      (by decide) (by decide)⟩

/-! ## Claim C6: content before the first version tag -/

/-- C6 counterexample: the unterminated pre-version line `foo` is buffered,
survives the first version tag (the stack is only cleared there when a
version was already established) and its text is emitted as part of the
first Statement of version 1: the returned SQL `foo bar;` contains the
pre-tag line's text at index 0. -/
theorem c6_pre_version_counterexample :
    ParseLines ["foo".toList, "#v1".toList, "bar;".toList]
      = Except.ok [⟨"foo bar;".toList, ⟨1, 0, 0⟩, Dir.up⟩] ∧
      findSub ("foo".toList) ("foo bar;".toList) = some 0 :=
  ⟨rfl, rfl⟩

theorem parseStep_no_version (st : PState) (l : List Char)
    (hpr : startsWithList versionProlog (trimList l) = false)
    (hv : st.currentVersion = none) (hc : st.commandStack = []) :
    ∃ st', parseStep st l = Except.ok st' ∧
      st'.currentVersion = none ∧ st'.commandStack = [] := by
  unfold parseStep
  by_cases hup : trimList l = upCommand
  · rw [if_pos hup]
    exact ⟨_, rfl, hv, hc⟩
  · rw [if_neg hup]
    by_cases hdn : trimList l = downCommand
    · rw [if_pos hdn]
      exact ⟨_, rfl, hv, hc⟩
    · rw [if_neg hdn]
      simp only [hpr, Bool.not_false, if_true]
      repeat' split
      all_goals try exact ⟨_, rfl, hv, hc⟩
      all_goals simp_all

theorem parseLinesAux_no_version : ∀ (lines : List (List Char)) (st : PState),
    (∀ l ∈ lines, startsWithList versionProlog (trimList l) = false) →
    st.currentVersion = none → st.commandStack = [] →
    parseLinesAux st lines = Except.ok [] := by
  intro lines
  induction lines with
  | nil =>
    intro st _ _ hc
    simp [parseLinesAux, hc]
  | cons l rest ih =>
    intro st hall hv hc
    obtain ⟨st', hstep, hv', hc'⟩ := parseStep_no_version st l (hall l (by simp)) hv hc
    simp only [parseLinesAux, hstep]
    exact ih st' (fun q hq => hall q (by simp [hq])) hv' hc'

/-- C6 (amended): no Statement is ever emitted while no version tag has
been seen — a script with no `#v` line yields no Statements, and a
`;`-terminated pre-tag statement is dropped — but the line buffer is not
cleared at the first version tag, so an unterminated pre-tag fragment is
retained and its text is joined into the first Statement emitted after that
tag. -/
theorem c6_pre_version_amended :
    (∀ lines : List (List Char),
      (∀ l ∈ lines, startsWithList versionProlog (trimList l) = false) →
      ParseLines lines = Except.ok []) ∧
      ParseLines ["baz;".toList, "#v1".toList, "bar;".toList]
        = Except.ok [⟨"bar;".toList, ⟨1, 0, 0⟩, Dir.up⟩] ∧
      ParseLines ["foo".toList, "#v1".toList, "bar;".toList]
        = Except.ok [⟨"foo bar;".toList, ⟨1, 0, 0⟩, Dir.up⟩] := by
  refine ⟨?_, rfl, rfl⟩
  intro lines h
  exact parseLinesAux_no_version lines _ h rfl rfl

theorem c6_pre_version_amended_witness :
    (∀ l ∈ [("abc;".toList)], startsWithList versionProlog (trimList l) = false) ∧
      ParseLines [("abc;".toList)] = Except.ok [] :=
  ⟨by decide, c6_pre_version_amended.1 [("abc;".toList)] (by decide)⟩

/-! ## Claim C9: `newSemver` after `ToString` is the identity -/

theorem natToCharsAux_eq : ∀ (fuel n : Nat) (ds : List Char), n < fuel →
    natToCharsAux fuel n ds = natCharsW n ++ ds := by
  intro fuel
  induction fuel with
  | zero =>
    intro n ds h
    exact absurd h (by omega)
  | succ fuel ih =>
    intro n ds h
    by_cases h10 : n < 10
    · rw [natCharsW]
      simp only [natToCharsAux, if_pos h10, Nat.mod_eq_of_lt h10]
      rfl
    · have hdiv : n / 10 < n := Nat.div_lt_self (by omega) (by omega)
      rw [natCharsW]
      simp only [natToCharsAux, if_neg h10]
      rw [ih (n / 10) (digitChar (n % 10) :: ds) (by omega)]
      simp

theorem natToChars_eq (n : Nat) : natToChars n = natCharsW n := by
  have := natToCharsAux_eq (n + 1) n [] (by omega)
  simpa [natToChars] using this

theorem digitChar_spec (d : Nat) (h : d < 10) :
    digitVal (digitChar d) = some d ∧ digitChar d ≠ '.' ∧ digitChar d ≠ '-' ∧
      digitChar d ≠ '+' ∧ digitChar d ≠ 'v' := by
  interval_cases d <;>
    exact ⟨by decide, by decide, by decide, by decide, by decide⟩

theorem natCharsW_spec (n : Nat) :
    natCharsW n ≠ [] ∧ ∀ c ∈ natCharsW n, ∃ d, d < 10 ∧ c = digitChar d := by
  induction n using Nat.strong_induction_on with
  | _ n ih =>
    rw [natCharsW]
    by_cases h10 : n < 10
    · rw [if_pos h10]
      refine ⟨by simp, ?_⟩
      intro c hc
      simp at hc
      exact ⟨n, h10, hc⟩
    · rw [if_neg h10]
      have hdiv : n / 10 < n := Nat.div_lt_self (by omega) (by omega)
      obtain ⟨hne, hdig⟩ := ih (n / 10) hdiv
      refine ⟨by simp [hne], ?_⟩
      intro c hc
      rcases List.mem_append.mp hc with h | h
      · exact hdig c h
      · simp at h
        exact ⟨n % 10, Nat.mod_lt _ (by omega), h⟩

theorem natCharsW_noDot (m : Nat) : '.' ∉ natCharsW m := by
  intro hm
  obtain ⟨_, hdig⟩ := natCharsW_spec m
  obtain ⟨d, hd10, hcd⟩ := hdig _ hm
  obtain ⟨_, hdot, _, _, _⟩ := digitChar_spec d hd10
  exact hdot hcd.symm

theorem digitsToNatAux_append (xs ys : List Char) : ∀ acc : Nat,
    digitsToNatAux acc (xs ++ ys) =
      (match digitsToNatAux acc xs with
       | none => none
       | some m => digitsToNatAux m ys) := by
  induction xs with
  | nil => intro acc; rfl
  | cons c xs ih =>
    intro acc
    cases hd : digitVal c with
    | none => simp [digitsToNatAux, hd]
    | some d =>
      simp only [List.cons_append, digitsToNatAux, hd]
      exact ih _

theorem digitsToNatAux_natCharsW : ∀ n acc : Nat,
    digitsToNatAux acc (natCharsW n) = some (acc * 10 ^ (natCharsW n).length + n) := by
  intro n
  induction n using Nat.strong_induction_on with
  | _ n ih =>
    intro acc
    rw [natCharsW]
    by_cases h10 : n < 10
    · rw [if_pos h10]
      obtain ⟨hval, _⟩ := digitChar_spec n h10
      simp [digitsToNatAux, hval]
    · rw [if_neg h10]
      have hdiv : n / 10 < n := Nat.div_lt_self (by omega) (by omega)
      have hmod : n % 10 < 10 := Nat.mod_lt _ (by omega)
      obtain ⟨hval, _⟩ := digitChar_spec (n % 10) hmod
      rw [digitsToNatAux_append]
      rw [ih (n / 10) hdiv acc]
      simp only [digitsToNatAux, hval, List.length_append, List.length_singleton]
      congr 1
      calc (acc * 10 ^ (natCharsW (n / 10)).length + n / 10) * 10 + n % 10
          = acc * (10 ^ (natCharsW (n / 10)).length * 10) + (n / 10 * 10 + n % 10) := by
            ring
        _ = acc * 10 ^ ((natCharsW (n / 10)).length + 1) + n := by
            rw [pow_succ]
            congr 1
            omega

theorem goAtoi_natCharsW (n : Nat) : goAtoi (natCharsW n) = some (Int.ofNat n) := by
  obtain ⟨hne, hdig⟩ := natCharsW_spec n
  obtain ⟨c, rest, hcons⟩ : ∃ c rest, natCharsW n = c :: rest := by
    cases h : natCharsW n with
    | nil => exact absurd h hne
    | cons c rest => exact ⟨c, rest, rfl⟩
  obtain ⟨d, hd10, hcd⟩ := hdig c (by rw [hcons]; simp)
  obtain ⟨_, _, hminus, hplus, _⟩ := digitChar_spec d hd10
  have hdtn : digitsToNat (c :: rest) = some n := by
    have h0 := digitsToNatAux_natCharsW n 0
    rw [hcons] at h0
    simpa [digitsToNat] using h0
  rw [hcons]
  simp only [goAtoi]
  rw [if_neg (by rw [hcd]; exact hminus), if_neg (by rw [hcd]; exact hplus), hdtn]
  rfl

theorem splitDot_noDot : ∀ l : List Char, '.' ∉ l → splitDot l = [l] := by
  intro l
  induction l with
  | nil => intro; rfl
  | cons c rest ih =>
    intro h
    have hc : c ≠ '.' := fun e => h (by simp [e])
    have hr : '.' ∉ rest := fun hm => h (by simp [hm])
    simp [splitDot, hc, ih hr]

theorem splitDot_append : ∀ (a rest : List Char), '.' ∉ a →
    splitDot (a ++ '.' :: rest) = a :: splitDot rest := by
  intro a
  induction a with
  | nil =>
    intro rest _
    simp [splitDot]
  | cons c a' ih =>
    intro rest h
    have hc : c ≠ '.' := fun e => h (by simp [e])
    have ha' : '.' ∉ a' := fun hm => h (by simp [hm])
    simp [splitDot, hc, ih rest ha']

theorem toString_eq (v : Semver) :
    Semver.ToString v
      = natCharsW v.major ++ ('.' :: (natCharsW v.minor ++ ('.' :: natCharsW v.patch))) := by
  unfold Semver.ToString
  rw [natToChars_eq, natToChars_eq, natToChars_eq]

theorem splitDot_toString (v : Semver) :
    splitDot (Semver.ToString v)
      = [natCharsW v.major, natCharsW v.minor, natCharsW v.patch] := by
  rw [toString_eq]
  rw [splitDot_append _ _ (natCharsW_noDot _), splitDot_append _ _ (natCharsW_noDot _),
    splitDot_noDot _ (natCharsW_noDot _)]

theorem natCharsW_eq_zero {m : Nat} (h : natCharsW m = ['0']) : m = 0 := by
  have h0 := digitsToNatAux_natCharsW m 0
  rw [h] at h0
  have h1 : digitsToNatAux 0 ['0'] = some 0 := by decide
  rw [h1] at h0
  simp at h0
  omega

/-- C9: for every valid version — at least one component non-zero, or the
distinguished zero version `0.0.0` — parsing the canonical rendering
`ToString v` with `newSemver` yields `v` back; `newSemver` composed with
`ToString` is the identity on valid versions. -/
theorem c9_parse_toString_roundtrip (v : Semver)
    (hvalid : v = bottomVersion ∨ v.major ≠ 0 ∨ v.minor ≠ 0 ∨ v.patch ≠ 0) :
    newSemver (Semver.ToString v) = some v := by
  obtain ⟨a, b, c⟩ := v
  by_cases hz : Semver.mk a b c = bottomVersion
  · rw [hz]
    rfl
  · have hnz : ¬(a = 0 ∧ b = 0 ∧ c = 0) := by
      intro ⟨h1, h2, h3⟩
      exact hz (by simp [bottomVersion, h1, h2, h3])
    obtain ⟨hneA, hdigA⟩ := natCharsW_spec a
    have hne : Semver.ToString ⟨a, b, c⟩ ≠ [] := by
      rw [toString_eq]
      intro h
      exact hneA (List.append_eq_nil.mp h).1
    have hnz3 : Semver.ToString ⟨a, b, c⟩ ≠ ['0', '.', '0', '.', '0'] := by
      intro h
      have hsplit := splitDot_toString ⟨a, b, c⟩
      rw [h] at hsplit
      have hsp0 : splitDot ['0', '.', '0', '.', '0'] = [['0'], ['0'], ['0']] := by decide
      rw [hsp0] at hsplit
      injection hsplit with hA hrest
      injection hrest with hB hrest2
      injection hrest2 with hC _
      exact hnz ⟨natCharsW_eq_zero hA.symm, natCharsW_eq_zero hB.symm,
        natCharsW_eq_zero hC.symm⟩
    have hstrip : stripV (Semver.ToString ⟨a, b, c⟩) = Semver.ToString ⟨a, b, c⟩ := by
      rw [toString_eq]
      cases hA : natCharsW a with
      | nil => exact absurd hA hneA
      | cons c0 rest =>
        obtain ⟨d, hd10, hcd⟩ := hdigA c0 (by rw [hA]; simp)
        obtain ⟨_, _, _, _, hv'⟩ := digitChar_spec d hd10
        have hc0 : c0 ≠ 'v' := by rw [hcd]; exact hv'
        simp [stripV, hc0]
    unfold newSemver
    rw [if_neg hne, if_neg hnz3, hstrip, splitDot_toString]
    have hnnA : ¬((a : Int) < 0) := by omega
    have hnnB : ¬((b : Int) < 0) := by omega
    have hnnC : ¬((c : Int) < 0) := by omega
    have hA := goAtoi_natCharsW a
    have hB := goAtoi_natCharsW b
    have hC := goAtoi_natCharsW c
    have hassign : assignFields ⟨0, 0, 0⟩ 0 [natCharsW a, natCharsW b, natCharsW c]
        = ⟨a, b, c⟩ := by
      simp [assignFields, hA, hB, hC, hnnA, hnnB, hnnC]
    simp [hassign, hnz]

theorem c9_parse_toString_roundtrip_witness :
    ((⟨1, 2, 3⟩ : Semver) = bottomVersion ∨ (1 : Nat) ≠ 0 ∨ (2 : Nat) ≠ 0 ∨ (3 : Nat) ≠ 0) ∧
      newSemver (Semver.ToString ⟨1, 2, 3⟩) = some ⟨1, 2, 3⟩ :=
  ⟨by decide, c9_parse_toString_roundtrip ⟨1, 2, 3⟩ (by decide)⟩

/-! ## Instantiations of the universally quantified claim theorems -/

theorem c1_selector_exact_witness :
    filterCommands (some ⟨1, 5, 1⟩) cmdsThree Dir.up none
      = cmdsThree.filter (fun c => specSelectedB c ⟨1, 5, 1⟩ Dir.up none) :=
  c1_selector_exact ⟨1, 5, 1⟩ cmdsThree Dir.up none

theorem c8_engine_error_never_logs_witness : engineErrorCalls 5 true = none :=
  c8_engine_error_never_logs 5

theorem c10_reset_amended_witness :
    (ProcessWithDirection envStored stUp Dir.down).finalSt.dir = Dir.up ∧
      (ProcessWithDirection envStored stUp Dir.down).finalSt.targetVersion
        = stUp.targetVersion ∧
      (ProcessWithTargetVersion envStored stUp ("1.0.0".toList)).finalSt.targetVersion
        = (if (newSemver ("1.0.0".toList)).isSome then none else stUp.targetVersion) ∧
      (ProcessWithTargetVersion envStored stUp ("1.0.0".toList)).finalSt.dir
        = (match newSemver ("1.0.0".toList) with
           | none => stUp.dir
           | some sv =>
             (Process envStored { stUp with targetVersion := some sv }).finalSt.dir) :=
  c10_reset_amended envStored stUp Dir.down ("1.0.0".toList)

end Dbmigrator
